import Mathlib

/-!
Verification of the chainhook evaluator of `orchestra-event-observer`
(`src/chainhooks/mod.rs` and `src/utils/mod.rs`).

The development shallowly embeds the data model and the three evaluation
functions — `evaluate_stacks_chainhooks_on_chain_event`,
`evaluate_stacks_chainhook_on_blocks` and
`evaluate_bitcoin_chainhooks_on_chain_event` together with
`BitcoinChainhookSpecification::evaluate_predicate` — and proves the
matching-semantics properties stated in the specification.  Rust
panics (`expect` on base58 decoding, out-of-range slicing) are embedded
as `Option.none`; everything else is a total function.
-/

/-- Block identifier: height (`index`) plus hash, as in `orchestra_types`. -/
structure BlockIdentifier where
  index : Nat
  hash : String
deriving DecidableEq, Repr

/-- Payload of a Stacks contract-call transaction kind. -/
structure StacksContractCallData where
  contract_identifier : String
  method : String
deriving DecidableEq, Repr

/-- Payload of a Stacks contract-deployment transaction kind. -/
structure StacksContractDeploymentData where
  contract_identifier : String
deriving DecidableEq, Repr

/-- Kind of a Stacks transaction, as matched by the evaluator. -/
inductive StacksTransactionKind where
  | ContractCall (data : StacksContractCallData)
  | ContractDeployment (data : StacksContractDeploymentData)
  | NativeTokenTransfer
  | Coinbase
  | Other
deriving DecidableEq, Repr

/-- Payload of an NFT mint/transfer/burn receipt event. -/
structure NFTEventData where
  asset_class_identifier : String
deriving DecidableEq, Repr

/-- Payload of an FT mint/transfer/burn receipt event. -/
structure FTEventData where
  asset_class_identifier : String
deriving DecidableEq, Repr

/-- Payload of a smart-contract (print) receipt event. -/
structure SmartContractEventData where
  contract_identifier : String
deriving DecidableEq, Repr

/-- Receipt events a Stacks transaction may emit; only the constructors
matched by the evaluator carry the data it reads. -/
inductive StacksTransactionEvent where
  | NFTMintEvent (data : NFTEventData)
  | NFTTransferEvent (data : NFTEventData)
  | NFTBurnEvent (data : NFTEventData)
  | FTMintEvent (data : FTEventData)
  | FTTransferEvent (data : FTEventData)
  | FTBurnEvent (data : FTEventData)
  | STXMintEvent
  | STXTransferEvent
  | STXLockEvent
  | STXBurnEvent
  | SmartContractEvent (data : SmartContractEventData)
deriving DecidableEq, Repr

/-- Receipt of a Stacks transaction: the ordered list of emitted events. -/
structure StacksTransactionReceipt where
  events : List StacksTransactionEvent
deriving DecidableEq, Repr

/-- Metadata of a Stacks transaction: its kind and its receipt. -/
structure StacksTransactionMetadata where
  kind : StacksTransactionKind
  receipt : StacksTransactionReceipt
deriving DecidableEq, Repr

/-- A Stacks transaction. -/
structure StacksTransactionData where
  transaction_identifier : String
  metadata : StacksTransactionMetadata
deriving DecidableEq, Repr

/-- Stacks contract-call hook predicate. -/
structure StacksContractCallBasedPredicate where
  contract_identifier : String
  method : String
deriving DecidableEq, Repr

/-- Stacks print-event hook predicate. -/
structure StacksPrintEventBasedPredicate where
  contract_identifier : String
deriving DecidableEq, Repr

/-- Stacks STX-event hook predicate. -/
structure StacksStxEventBasedPredicate where
  actions : List String
deriving DecidableEq, Repr

/-- Stacks NFT-event hook predicate. -/
structure StacksNftEventBasedPredicate where
  asset_identifier : String
  actions : List String
deriving DecidableEq, Repr

/-- Stacks FT-event hook predicate. -/
structure StacksFtEventBasedPredicate where
  asset_identifier : String
  actions : List String
deriving DecidableEq, Repr

/-- Predicate of a Stacks chainhook. -/
inductive StacksHookPredicate where
  | ContractCall (p : StacksContractCallBasedPredicate)
  | PrintEvent (p : StacksPrintEventBasedPredicate)
  | StxEvent (p : StacksStxEventBasedPredicate)
  | NftEvent (p : StacksNftEventBasedPredicate)
  | FtEvent (p : StacksFtEventBasedPredicate)
deriving DecidableEq, Repr

/-- HTTP sink descriptor of a hook action. -/
structure HttpHook where
  url : String
  method : String
  authorization_header : String
deriving DecidableEq, Repr

/-- Action of a chainhook: HTTP dispatch or no-op. -/
inductive HookAction where
  | Http (h : HttpHook)
  | Noop
deriving DecidableEq, Repr

/-- A registered Stacks chainhook: identity, predicate and action. -/
structure StacksChainhookSpecification where
  uuid : String
  predicate : StacksHookPredicate
  action : HookAction
deriving DecidableEq, Repr

/-- A Stacks anchored block: identifier, parent identifier, transactions. -/
structure StacksBlockData where
  block_identifier : BlockIdentifier
  parent_block_identifier : BlockIdentifier
  transactions : List StacksTransactionData
deriving DecidableEq, Repr

/-- A Stacks microblock: identifier, parent identifier, transactions. -/
structure StacksMicroblockData where
  block_identifier : BlockIdentifier
  parent_block_identifier : BlockIdentifier
  transactions : List StacksTransactionData
deriving DecidableEq, Repr

/-- The `AbstractBlock` capability of `utils/mod.rs`: anything exposing an
identifier, a parent identifier and an ordered transaction list. -/
structure AbstractBlock where
  get_identifier : BlockIdentifier
  get_parent_identifier : BlockIdentifier
  get_transactions : List StacksTransactionData
deriving DecidableEq, Repr

/-- The `AbstractBlock` instance for anchored blocks. -/
def StacksBlockData.toAbstractBlock (b : StacksBlockData) : AbstractBlock :=
  ⟨b.block_identifier, b.parent_block_identifier, b.transactions⟩

/-- The `AbstractBlock` instance for microblocks. -/
def StacksMicroblockData.toAbstractBlock (b : StacksMicroblockData) : AbstractBlock :=
  ⟨b.block_identifier, b.parent_block_identifier, b.transactions⟩

/-- One entry of `new_blocks` / `blocks_to_apply` / `blocks_to_rollback`:
a block plus its parent microblocks to apply and to roll back. -/
structure StacksBlockUpdate where
  block : StacksBlockData
  parents_microblocks_to_apply : List StacksMicroblockData
  parents_microblocks_to_rollback : List StacksMicroblockData
deriving DecidableEq, Repr

/-- The four Stacks chain-event variants dispatched on by the evaluator. -/
inductive StacksChainEvent where
  | ChainUpdatedWithBlocks (new_blocks : List StacksBlockUpdate)
  | ChainUpdatedWithMicroblocks (new_microblocks : List StacksMicroblockData)
  | ChainUpdatedWithMicroblocksReorg
      (microblocks_to_apply : List StacksMicroblockData)
      (microblocks_to_rollback : List StacksMicroblockData)
  | ChainUpdatedWithReorg
      (blocks_to_apply : List StacksBlockUpdate)
      (blocks_to_rollback : List StacksBlockUpdate)
deriving DecidableEq, Repr

/-- One occurrence recorded by the Stacks per-block matcher. -/
abbrev StacksOccurrence := StacksTransactionData × BlockIdentifier

/-- The trigger produced per matching hook per evaluation pass. -/
structure StacksTriggerChainhook where
  chainhook : StacksChainhookSpecification
  apply : List StacksOccurrence
  rollback : List StacksOccurrence
deriving DecidableEq, Repr

/-- The inner `match (event, &chainhook.predicate)` of the receipt-event
scan in `evaluate_stacks_chainhook_on_blocks`: does this emitted event
satisfy the hook predicate? -/
def eventPredicateMatch (event : StacksTransactionEvent)
    (pred : StacksHookPredicate) : Bool :=
  match event, pred with
  | .NFTMintEvent actual, .NftEvent expected =>
    actual.asset_class_identifier == expected.asset_identifier
      && expected.actions.contains "mint"
  | .NFTTransferEvent actual, .NftEvent expected =>
    actual.asset_class_identifier == expected.asset_identifier
      && expected.actions.contains "transfer"
  | .NFTBurnEvent actual, .NftEvent expected =>
    actual.asset_class_identifier == expected.asset_identifier
      && expected.actions.contains "burn"
  | .FTMintEvent actual, .FtEvent expected =>
    actual.asset_class_identifier == expected.asset_identifier
      && expected.actions.contains "mint"
  | .FTTransferEvent actual, .FtEvent expected =>
    actual.asset_class_identifier == expected.asset_identifier
      && expected.actions.contains "transfer"
  | .FTBurnEvent actual, .FtEvent expected =>
    actual.asset_class_identifier == expected.asset_identifier
      && expected.actions.contains "burn"
  | .STXMintEvent, .StxEvent expected => expected.actions.contains "mint"
  | .STXTransferEvent, .StxEvent expected => expected.actions.contains "transfer"
  | .STXLockEvent, .StxEvent expected => expected.actions.contains "lock"
  | .SmartContractEvent actual, .PrintEvent expected =>
    actual.contract_identifier == expected.contract_identifier
  | _, _ => false

/-- The `for event in tx.metadata.receipt.events` loop: on the first
event satisfying the predicate, push `(tx, block identifier)` and `break`
(so at most one occurrence is pushed per transaction). -/
def scanReceiptEvents (pred : StacksHookPredicate) (tx : StacksTransactionData)
    (bid : BlockIdentifier) :
    List StacksTransactionEvent → List StacksOccurrence
  | [] => []
  | event :: rest =>
    if eventPredicateMatch event pred then [(tx, bid)]
    else scanReceiptEvents pred tx bid rest

/-- The body of the per-transaction loop of
`evaluate_stacks_chainhook_on_blocks`: the occurrences this transaction
contributes.  A contract-call transaction against a contract-call
predicate matches on identifier and method (push then `continue`); a
contract-call transaction against any other predicate, and a
contract-deployment transaction against any predicate, scan the receipt
events; every other kind contributes nothing (including the
`NativeTokenTransfer` × `StxEvent` arm, a no-op in the source). -/
def txOccurrences (chainhook : StacksChainhookSpecification)
    (bid : BlockIdentifier) (tx : StacksTransactionData) :
    List StacksOccurrence :=
  match tx.metadata.kind, chainhook.predicate with
  | .ContractCall actual, .ContractCall expected =>
    if actual.contract_identifier == expected.contract_identifier
        && actual.method == expected.method then [(tx, bid)] else []
  | .ContractCall _, .PrintEvent _ =>
    scanReceiptEvents chainhook.predicate tx bid tx.metadata.receipt.events
  | .ContractCall _, .StxEvent _ =>
    scanReceiptEvents chainhook.predicate tx bid tx.metadata.receipt.events
  | .ContractCall _, .NftEvent _ =>
    scanReceiptEvents chainhook.predicate tx bid tx.metadata.receipt.events
  | .ContractCall _, .FtEvent _ =>
    scanReceiptEvents chainhook.predicate tx bid tx.metadata.receipt.events
  | .ContractDeployment _, _ =>
    scanReceiptEvents chainhook.predicate tx bid tx.metadata.receipt.events
  | .NativeTokenTransfer, _ => []
  | .Coinbase, _ => []
  | .Other, _ => []

/-- `evaluate_stacks_chainhook_on_blocks`: for every block-like entity,
for every transaction, collect the occurrences in order. -/
def evaluate_stacks_chainhook_on_blocks (blocks : List AbstractBlock)
    (chainhook : StacksChainhookSpecification) : List StacksOccurrence :=
  blocks.flatMap fun block =>
    block.get_transactions.flatMap fun tx =>
      txOccurrences chainhook block.get_identifier tx

/-- The `for block_update in update.new_blocks` loop of the
`ChainUpdatedWithBlocks` arm: per block-update, append the matches of the
parent microblocks-to-apply to `apply`, the matches of the parent
microblocks-to-rollback to `rollback`, then the matches of the block
itself to `apply`. -/
def stacksBlockUpdatesLoop (chainhook : StacksChainhookSpecification)
    (updates : List StacksBlockUpdate)
    (apply rollback : List StacksOccurrence) :
    List StacksOccurrence × List StacksOccurrence :=
  match updates with
  | [] => (apply, rollback)
  | bu :: rest =>
    stacksBlockUpdatesLoop chainhook rest
      ((apply
        ++ bu.parents_microblocks_to_apply.flatMap fun mb =>
            evaluate_stacks_chainhook_on_blocks [mb.toAbstractBlock] chainhook)
        ++ evaluate_stacks_chainhook_on_blocks [bu.block.toAbstractBlock] chainhook)
      (rollback
        ++ bu.parents_microblocks_to_rollback.flatMap fun mb =>
            evaluate_stacks_chainhook_on_blocks [mb.toAbstractBlock] chainhook)

/-- The `for block_update in update.blocks_to_apply` loop of the
`ChainUpdatedWithReorg` arm: parent microblocks-to-apply, then the block,
all into `apply`. -/
def stacksReorgApplyLoop (chainhook : StacksChainhookSpecification)
    (updates : List StacksBlockUpdate) (apply : List StacksOccurrence) :
    List StacksOccurrence :=
  match updates with
  | [] => apply
  | bu :: rest =>
    stacksReorgApplyLoop chainhook rest
      ((apply
        ++ bu.parents_microblocks_to_apply.flatMap fun mb =>
            evaluate_stacks_chainhook_on_blocks [mb.toAbstractBlock] chainhook)
        ++ evaluate_stacks_chainhook_on_blocks [bu.block.toAbstractBlock] chainhook)

/-- The `for block_update in update.blocks_to_rollback` loop of the
`ChainUpdatedWithReorg` arm: parent microblocks-to-rollback, then the
block, all into `rollback`. -/
def stacksReorgRollbackLoop (chainhook : StacksChainhookSpecification)
    (updates : List StacksBlockUpdate) (rollback : List StacksOccurrence) :
    List StacksOccurrence :=
  match updates with
  | [] => rollback
  | bu :: rest =>
    stacksReorgRollbackLoop chainhook rest
      ((rollback
        ++ bu.parents_microblocks_to_rollback.flatMap fun mb =>
            evaluate_stacks_chainhook_on_blocks [mb.toAbstractBlock] chainhook)
        ++ evaluate_stacks_chainhook_on_blocks [bu.block.toAbstractBlock] chainhook)

/-- The per-hook (apply, rollback) accumulation of
`evaluate_stacks_chainhooks_on_chain_event`, by chain-event variant. -/
def stacksHookPair (chain_event : StacksChainEvent)
    (chainhook : StacksChainhookSpecification) :
    List StacksOccurrence × List StacksOccurrence :=
  match chain_event with
  | .ChainUpdatedWithBlocks new_blocks =>
    stacksBlockUpdatesLoop chainhook new_blocks [] []
  | .ChainUpdatedWithMicroblocks new_microblocks =>
    (new_microblocks.flatMap fun mb =>
      evaluate_stacks_chainhook_on_blocks [mb.toAbstractBlock] chainhook, [])
  | .ChainUpdatedWithMicroblocksReorg mbs_to_apply mbs_to_rollback =>
    (mbs_to_apply.flatMap fun mb =>
      evaluate_stacks_chainhook_on_blocks [mb.toAbstractBlock] chainhook,
     mbs_to_rollback.flatMap fun mb =>
      evaluate_stacks_chainhook_on_blocks [mb.toAbstractBlock] chainhook)
  | .ChainUpdatedWithReorg blocks_to_apply blocks_to_rollback =>
    (stacksReorgApplyLoop chainhook blocks_to_apply [],
     stacksReorgRollbackLoop chainhook blocks_to_rollback [])

/-- `evaluate_stacks_chainhooks_on_chain_event`: for each active chainhook
in order, accumulate its (apply, rollback) pair for the event and push a
trigger exactly when `!apply.is_empty() || !rollback.is_empty()`. -/
def evaluate_stacks_chainhooks_on_chain_event
    (chain_event : StacksChainEvent)
    (active_chainhooks : List StacksChainhookSpecification) :
    List StacksTriggerChainhook :=
  active_chainhooks.filterMap fun chainhook =>
    if (stacksHookPair chain_event chainhook).1.isEmpty
        && (stacksHookPair chain_event chainhook).2.isEmpty then none
    else some ⟨chainhook, (stacksHookPair chain_event chainhook).1,
      (stacksHookPair chain_event chainhook).2⟩

/-- Transactions contained in the blocks and microblocks that the
evaluator reads into the apply side of the given event; used to state the
disjointness premise of the amended apply/rollback exclusivity
invariant. -/
def eventApplyTransactions : StacksChainEvent → List StacksTransactionData
  | .ChainUpdatedWithBlocks bus => bus.flatMap fun bu =>
      (bu.parents_microblocks_to_apply.flatMap fun mb => mb.transactions)
        ++ bu.block.transactions
  | .ChainUpdatedWithMicroblocks mbs => mbs.flatMap fun mb => mb.transactions
  | .ChainUpdatedWithMicroblocksReorg mbs_to_apply _ =>
      mbs_to_apply.flatMap fun mb => mb.transactions
  | .ChainUpdatedWithReorg blocks_to_apply _ =>
      blocks_to_apply.flatMap fun bu =>
        (bu.parents_microblocks_to_apply.flatMap fun mb => mb.transactions)
          ++ bu.block.transactions

/-- Transactions contained in the blocks and microblocks that the
evaluator reads into the rollback side of the given event. -/
def eventRollbackTransactions : StacksChainEvent → List StacksTransactionData
  | .ChainUpdatedWithBlocks bus => bus.flatMap fun bu =>
      bu.parents_microblocks_to_rollback.flatMap fun mb => mb.transactions
  | .ChainUpdatedWithMicroblocks _ => []
  | .ChainUpdatedWithMicroblocksReorg _ mbs_to_rollback =>
      mbs_to_rollback.flatMap fun mb => mb.transactions
  | .ChainUpdatedWithReorg _ blocks_to_rollback =>
      blocks_to_rollback.flatMap fun bu =>
        (bu.parents_microblocks_to_rollback.flatMap fun mb => mb.transactions)
          ++ bu.block.transactions

/-- Alphabet of the base58 encoding used for Bitcoin addresses. -/
def BASE58_ALPHABET : List Char :=
  "123456789ABCDEFGHJKLMNPQRSTUVWXYZabcdefghijkmnopqrstuvwxyz".toList

/-- Value of one base58 character; `none` for a character outside the
alphabet. -/
def base58DigitValue (c : Char) : Option Nat :=
  let i := BASE58_ALPHABET.indexOf c
  if i < 58 then some i else none

/-- Fuel-indexed big-endian byte expansion; the fuel bounds the number of
digits, so any fuel at least the digit count gives the minimal
representation. -/
def natToBytesBEAux (fuel : Nat) (n : Nat) : List Nat :=
  match fuel with
  | 0 => []
  | fuel + 1 => if n = 0 then [] else natToBytesBEAux fuel (n / 256) ++ [n % 256]

/-- Big-endian minimal byte representation of a natural number (empty for
zero); `n` itself always bounds its own digit count. -/
def natToBytesBE (n : Nat) : List Nat := natToBytesBEAux n n

/-- The external base58 primitive `str::from_base58` (consumed as a given
primitive per the specification): reject any character outside the
alphabet, read the remaining digits as a big-endian base-58 number, and
prepend one zero byte per leading `1` character. -/
def from_base58 (s : String) : Option (List Nat) :=
  match s.toList.mapM base58DigitValue with
  | none => none
  | some digits =>
    let n := digits.foldl (fun acc d => acc * 58 + d) 0
    let zeros := (s.toList.takeWhile (fun c => c == '1')).length
    some (List.replicate zeros 0 ++ natToBytesBE n)

/-- Lowercase hexadecimal digits. -/
def HEX_DIGITS : List Char := "0123456789abcdef".toList

/-- Two lowercase hex characters of a byte. -/
def byteToHex (b : Nat) : List Char :=
  [HEX_DIGITS.getD (b / 16 % 16) '0', HEX_DIGITS.getD (b % 16) '0']

/-- The external `to_hex` primitive: lowercase hex encoding of a byte
sequence. -/
def to_hex (bytes : List Nat) : String :=
  String.mk (bytes.flatMap byteToHex)

/-- Bitcoin script opcode `OP_DUP`. -/
def OP_DUP : Nat := 118

/-- Bitcoin script opcode `OP_HASH160`. -/
def OP_HASH160 : Nat := 169

/-- Bitcoin script opcode `OP_EQUALVERIFY`. -/
def OP_EQUALVERIFY : Nat := 136

/-- Bitcoin script opcode `OP_CHECKSIG`. -/
def OP_CHECKSIG : Nat := 172

/-- The script built by the external `Builder` primitive in
`evaluate_predicate`: `OP_DUP OP_HASH160 <push hash> OP_EQUALVERIFY
OP_CHECKSIG`, where `push_slice` of a short slice emits one length byte
followed by the slice. -/
def p2pkhScript (pubkey_hash : List Nat) : List Nat :=
  [OP_DUP, OP_HASH160, pubkey_hash.length] ++ pubkey_hash
    ++ [OP_EQUALVERIFY, OP_CHECKSIG]

/-- The three matching rules of a Bitcoin predicate. -/
inductive MatchingRule where
  | Equals (value : String)
  | StartsWith (value : String)
  | EndsWith (value : String)
deriving DecidableEq, Repr

/-- Address forms of a Bitcoin predicate. -/
inductive BitcoinPredicateType where
  | Hex (rule : MatchingRule)
  | P2pkh (rule : MatchingRule)
  | P2sh (rule : MatchingRule)
  | P2wpkh (rule : MatchingRule)
  | P2wsh (rule : MatchingRule)
  | Script (template : String)
deriving DecidableEq, Repr

/-- Predicate of a Bitcoin chainhook. -/
structure BitcoinHookPredicate where
  kind : BitcoinPredicateType
deriving DecidableEq, Repr

/-- A registered Bitcoin chainhook. -/
structure BitcoinChainhookSpecification where
  uuid : String
  predicate : BitcoinHookPredicate
  action : HookAction
deriving DecidableEq, Repr

/-- One output of a Bitcoin transaction; the evaluator reads only the hex
encoded script-pubkey. -/
structure BitcoinTransactionOutput where
  value : Nat
  script_pubkey : String
deriving DecidableEq, Repr

/-- Metadata of a Bitcoin transaction: its outputs. -/
structure BitcoinTransactionMetadata where
  outputs : List BitcoinTransactionOutput
deriving DecidableEq, Repr

/-- A Bitcoin transaction. -/
structure BitcoinTransactionData where
  transaction_identifier : String
  metadata : BitcoinTransactionMetadata
deriving DecidableEq, Repr

/-- A Bitcoin block: identifier and transactions. -/
structure BitcoinBlockData where
  block_identifier : BlockIdentifier
  transactions : List BitcoinTransactionData
deriving DecidableEq, Repr

/-- The two Bitcoin chain-event variants. -/
inductive BitcoinChainEvent where
  | ChainUpdatedWithBlocks (block : BitcoinBlockData)
  | ChainUpdatedWithReorg
      (old_blocks : List BitcoinBlockData)
      (new_blocks : List BitcoinBlockData)
deriving DecidableEq, Repr

/-- `BitcoinChainhookSpecification::evaluate_predicate`.  `none` embeds a
panic: the `expect` on a failed base58 decode, and the out-of-range slice
`pubkey_hash[1..21]` when fewer than 21 bytes were decoded.  The
implemented `P2pkh(Equals(address))` arm rebuilds the canonical
pay-to-pubkey-hash script from bytes 1..21 of the decoded address and
compares its hex encoding against every output's script-pubkey; every
other (address-form, rule) arm returns `false`. -/
def BitcoinChainhookSpecification.evaluate_predicate
    (hook : BitcoinChainhookSpecification) (tx : BitcoinTransactionData) :
    Option Bool :=
  match hook.predicate.kind with
  | .Hex (.Equals _) => some false
  | .Hex (.StartsWith _) => some false
  | .Hex (.EndsWith _) => some false
  | .P2pkh (.Equals address) =>
    match from_base58 address with
    | none => none
    | some pubkey_hash =>
      if pubkey_hash.length < 21 then none
      else
        let script := p2pkhScript ((pubkey_hash.drop 1).take 20)
        some (tx.metadata.outputs.any fun output =>
          output.script_pubkey == to_hex script)
  | .P2pkh (.StartsWith _) => some false
  | .P2pkh (.EndsWith _) => some false
  | .P2sh (.Equals _) => some false
  | .P2sh (.StartsWith _) => some false
  | .P2sh (.EndsWith _) => some false
  | .P2wpkh (.Equals _) => some false
  | .P2wpkh (.StartsWith _) => some false
  | .P2wpkh (.EndsWith _) => some false
  | .P2wsh (.Equals _) => some false
  | .P2wsh (.StartsWith _) => some false
  | .P2wsh (.EndsWith _) => some false
  | .Script _ => some false

/-- Abort condition of a P2PKH `Equals` predicate evaluation: the address
fails to decode from base58, or decodes to fewer than the 21 bytes the
slice `pubkey_hash[1..21]` requires. -/
def base58AddressAborts (address : String) : Bool :=
  match from_base58 address with
  | none => true
  | some bytes => decide (bytes.length < 21)

/-- One emitted Bitcoin trigger tuple. -/
abbrev BitcoinTriggerTuple :=
  BitcoinChainhookSpecification × BitcoinTransactionData × BlockIdentifier

/-- The `for tx in block.transactions` loop of
`evaluate_bitcoin_chainhooks_on_chain_event` for one hook: emit the tuple
when the predicate holds; a panicking predicate evaluation aborts the
whole call (`none`). -/
def bitcoinHookScan (hook : BitcoinChainhookSpecification)
    (bid : BlockIdentifier) :
    List BitcoinTransactionData → Option (List BitcoinTriggerTuple)
  | [] => some []
  | tx :: rest =>
    match hook.evaluate_predicate tx with
    | none => none
    | some true =>
      (bitcoinHookScan hook bid rest).map fun l => (hook, tx, bid) :: l
    | some false => bitcoinHookScan hook bid rest

/-- The `for hook in active_chainhooks` loop of
`evaluate_bitcoin_chainhooks_on_chain_event`. -/
def bitcoinHooksLoop (block : BitcoinBlockData) :
    List BitcoinChainhookSpecification → Option (List BitcoinTriggerTuple)
  | [] => some []
  | hook :: rest =>
    match bitcoinHookScan hook block.block_identifier block.transactions with
    | none => none
    | some l =>
      match bitcoinHooksLoop block rest with
      | none => none
      | some r => some (l ++ r)

/-- `evaluate_bitcoin_chainhooks_on_chain_event`: only the
`ChainUpdatedWithBlocks` variant is handled; `ChainUpdatedWithReorg`
yields no triggers. -/
def evaluate_bitcoin_chainhooks_on_chain_event
    (chain_event : BitcoinChainEvent)
    (active_chainhooks : List BitcoinChainhookSpecification) :
    Option (List BitcoinTriggerTuple) :=
  match chain_event with
  | .ChainUpdatedWithBlocks block => bitcoinHooksLoop block active_chainhooks
  | .ChainUpdatedWithReorg _ _ => some []

/-- Example contract-call transaction used in concrete instances. -/
def exContractCallTx : StacksTransactionData :=
  ⟨"tx-call", ⟨.ContractCall ⟨"SP000.farm", "transfer"⟩, ⟨[]⟩⟩⟩

/-- Example transaction emitting two receipt events that each satisfy the
example NFT hook. -/
def exNftTx : StacksTransactionData :=
  ⟨"tx-nft", ⟨.ContractDeployment ⟨"SP000.farm"⟩,
    ⟨[.NFTMintEvent ⟨"SP000.farm::seed"⟩, .NFTMintEvent ⟨"SP000.farm::seed"⟩]⟩⟩⟩

/-- Example hook whose contract-call predicate matches `exContractCallTx`. -/
def exCallHook : StacksChainhookSpecification :=
  ⟨"hook-call", .ContractCall ⟨"SP000.farm", "transfer"⟩, .Noop⟩

/-- Example hook whose NFT predicate matches both events of `exNftTx`. -/
def exNftHook : StacksChainhookSpecification :=
  ⟨"hook-nft", .NftEvent ⟨"SP000.farm::seed", ["mint"]⟩, .Noop⟩

/-- Example hook matching nothing in the example events. -/
def exIdleHook : StacksChainhookSpecification :=
  ⟨"hook-idle", .ContractCall ⟨"SP000.other", "mint"⟩, .Noop⟩

/-- Example microblock holding the contract-call transaction. -/
def exMicroblockA : StacksMicroblockData :=
  ⟨⟨11, "mbA"⟩, ⟨10, "b10"⟩, [exContractCallTx]⟩

/-- Example microblock holding the NFT transaction. -/
def exMicroblockB : StacksMicroblockData :=
  ⟨⟨12, "mbB"⟩, ⟨10, "b10"⟩, [exNftTx]⟩

/-- Example anchored block holding the NFT transaction. -/
def exBlock : StacksBlockData :=
  ⟨⟨13, "blk"⟩, ⟨12, "b12"⟩, [exNftTx]⟩

/-- Example block update: one parent microblock to apply, one to roll
back, and the block. -/
def exBlockUpdate : StacksBlockUpdate :=
  ⟨exBlock, [exMicroblockA], [exMicroblockB]⟩

/-- Second example contract-call transaction matching the same hook. -/
def exContractCallTx2 : StacksTransactionData :=
  ⟨"tx-call2", ⟨.ContractCall ⟨"SP000.farm", "transfer"⟩, ⟨[]⟩⟩⟩

/-- Example microblock holding the second contract-call transaction. -/
def exMicroblockC : StacksMicroblockData :=
  ⟨⟨14, "mbC"⟩, ⟨10, "b10"⟩, [exContractCallTx2]⟩

/-- Example base58 address of 22 `1` characters: it decodes to 22 zero
bytes, so its embedded hash is the all-zero 20-byte hash. -/
def exAddress : String := "1111111111111111111111"

/-- Hex encoding of the canonical P2PKH script for the all-zero hash. -/
def exScriptHex : String := to_hex (p2pkhScript (List.replicate 20 0))

/-- Example Bitcoin transaction paying to the example address. -/
def exBtcTx : BitcoinTransactionData := ⟨"btc-tx", ⟨[⟨5000, exScriptHex⟩]⟩⟩

/-- Example Bitcoin transaction paying elsewhere. -/
def exBtcTxOther : BitcoinTransactionData := ⟨"btc-tx2", ⟨[⟨700, "00aa"⟩]⟩⟩

/-- Example Bitcoin P2PKH hook for the example address. -/
def exBtcHook : BitcoinChainhookSpecification :=
  ⟨"hook-btc", ⟨.P2pkh (.Equals exAddress)⟩, .Noop⟩

/-- Example Bitcoin hook carrying an unimplemented rule. -/
def exBtcHexHook : BitcoinChainhookSpecification :=
  ⟨"hook-btc-hex", ⟨.Hex (.Equals "76a9")⟩, .Noop⟩

/-- Example Bitcoin block holding both example transactions. -/
def exBtcBlock : BitcoinBlockData :=
  ⟨⟨99, "btc-blk"⟩, [exBtcTx, exBtcTxOther]⟩

/-- The receipt-event scan yields either nothing or the single occurrence
of the scanned transaction. -/
theorem scanReceiptEvents_cases (pred : StacksHookPredicate)
    (tx : StacksTransactionData) (bid : BlockIdentifier) :
    ∀ evs : List StacksTransactionEvent,
      scanReceiptEvents pred tx bid evs = [] ∨
        scanReceiptEvents pred tx bid evs = [(tx, bid)]
  | [] => Or.inl rfl
  | event :: rest => by
    cases h : eventPredicateMatch event pred
    · simpa [scanReceiptEvents, h] using scanReceiptEvents_cases pred tx bid rest
    · right; simp [scanReceiptEvents, h]

/-- A transaction contributes either nothing or exactly its own single
occurrence. -/
theorem txOccurrences_cases (chainhook : StacksChainhookSpecification)
    (bid : BlockIdentifier) (tx : StacksTransactionData) :
    txOccurrences chainhook bid tx = [] ∨
      txOccurrences chainhook bid tx = [(tx, bid)] := by
  obtain ⟨tid, ⟨kind, rc⟩⟩ := tx
  obtain ⟨u, pred, act⟩ := chainhook
  cases kind <;> cases pred <;>
    first
      | exact Or.inl rfl
      | exact scanReceiptEvents_cases _ _ _ _
      | (dsimp only [txOccurrences]; split <;> simp)

/-- Every occurrence a transaction contributes is its own pair. -/
theorem mem_txOccurrences {chainhook : StacksChainhookSpecification}
    {bid : BlockIdentifier} {tx : StacksTransactionData} {p : StacksOccurrence}
    (hp : p ∈ txOccurrences chainhook bid tx) : p = (tx, bid) := by
  rcases txOccurrences_cases chainhook bid tx with h | h <;> rw [h] at hp
  · cases hp
  · simpa using hp

/-- Every occurrence of the per-block matcher names a transaction of one
of the scanned blocks together with that block's identifier. -/
theorem mem_evaluate_stacks_chainhook_on_blocks
    {blocks : List AbstractBlock} {chainhook : StacksChainhookSpecification}
    {p : StacksOccurrence}
    (hp : p ∈ evaluate_stacks_chainhook_on_blocks blocks chainhook) :
    ∃ b ∈ blocks, p.1 ∈ b.get_transactions ∧ p.2 = b.get_identifier := by
  rw [evaluate_stacks_chainhook_on_blocks, List.mem_flatMap] at hp
  obtain ⟨b, hb, hp⟩ := hp
  rw [List.mem_flatMap] at hp
  obtain ⟨tx, htx, hp⟩ := hp
  rcases mem_txOccurrences hp with rfl
  exact ⟨b, hb, htx, rfl⟩

/-- Occurrences of a single-block matcher call, counted per pair, never
exceed the multiplicity of the transaction in the block. -/
theorem count_occurrences_le_count (chainhook : StacksChainhookSpecification)
    (bid : BlockIdentifier) (tx : StacksTransactionData) :
    ∀ txs : List StacksTransactionData,
      ((txs.flatMap fun t => txOccurrences chainhook bid t).count
          ((tx, bid) : StacksOccurrence)) ≤ txs.count tx
  | [] => by simp
  | t :: txs => by
    have ih := count_occurrences_le_count chainhook bid tx txs
    rw [List.flatMap_cons]
    rcases txOccurrences_cases chainhook bid t with h | h <;> rw [h]
    · rw [List.nil_append]
      by_cases htx : t = tx
      · subst htx; rw [List.count_cons_self]; omega
      · rw [List.count_cons_of_ne (fun hh => htx hh.symm)]; exact ih
    · rw [List.singleton_append]
      by_cases htx : t = tx
      · subst htx; rw [List.count_cons_self, List.count_cons_self]; omega
      · rw [List.count_cons_of_ne (fun hh => htx hh.symm),
          List.count_cons_of_ne (by intro hc; injection hc with h1 h2; exact htx h1.symm)]
        exact ih

/-- Closed form of the `ChainUpdatedWithBlocks` accumulation loop. -/
theorem stacksBlockUpdatesLoop_eq (chainhook : StacksChainhookSpecification) :
    ∀ (updates : List StacksBlockUpdate) (a r : List StacksOccurrence),
      stacksBlockUpdatesLoop chainhook updates a r =
        (a ++ updates.flatMap fun bu =>
            (bu.parents_microblocks_to_apply.flatMap fun mb =>
              evaluate_stacks_chainhook_on_blocks [mb.toAbstractBlock] chainhook)
            ++ evaluate_stacks_chainhook_on_blocks [bu.block.toAbstractBlock] chainhook,
         r ++ updates.flatMap fun bu =>
            bu.parents_microblocks_to_rollback.flatMap fun mb =>
              evaluate_stacks_chainhook_on_blocks [mb.toAbstractBlock] chainhook)
  | [], a, r => by simp [stacksBlockUpdatesLoop]
  | bu :: rest, a, r => by
    rw [stacksBlockUpdatesLoop, stacksBlockUpdatesLoop_eq chainhook rest]
    simp [List.append_assoc]

/-- Closed form of the reorg apply-side loop. -/
theorem stacksReorgApplyLoop_eq (chainhook : StacksChainhookSpecification) :
    ∀ (updates : List StacksBlockUpdate) (a : List StacksOccurrence),
      stacksReorgApplyLoop chainhook updates a =
        a ++ updates.flatMap fun bu =>
          (bu.parents_microblocks_to_apply.flatMap fun mb =>
            evaluate_stacks_chainhook_on_blocks [mb.toAbstractBlock] chainhook)
          ++ evaluate_stacks_chainhook_on_blocks [bu.block.toAbstractBlock] chainhook
  | [], a => by simp [stacksReorgApplyLoop]
  | bu :: rest, a => by
    rw [stacksReorgApplyLoop, stacksReorgApplyLoop_eq chainhook rest]
    simp [List.append_assoc]

/-- Closed form of the reorg rollback-side loop. -/
theorem stacksReorgRollbackLoop_eq (chainhook : StacksChainhookSpecification) :
    ∀ (updates : List StacksBlockUpdate) (r : List StacksOccurrence),
      stacksReorgRollbackLoop chainhook updates r =
        r ++ updates.flatMap fun bu =>
          (bu.parents_microblocks_to_rollback.flatMap fun mb =>
            evaluate_stacks_chainhook_on_blocks [mb.toAbstractBlock] chainhook)
          ++ evaluate_stacks_chainhook_on_blocks [bu.block.toAbstractBlock] chainhook
  | [], r => by simp [stacksReorgRollbackLoop]
  | bu :: rest, r => by
    rw [stacksReorgRollbackLoop, stacksReorgRollbackLoop_eq chainhook rest]
    simp [List.append_assoc]

/-- Every transaction named on the apply side of a hook's accumulated
pair comes from an apply-side block or microblock of the event. -/
theorem stacksHookPair_fst_origin {ev : StacksChainEvent}
    {chainhook : StacksChainhookSpecification} {p : StacksOccurrence}
    (hp : p ∈ (stacksHookPair ev chainhook).1) :
    p.1 ∈ eventApplyTransactions ev := by
  cases ev with
  | ChainUpdatedWithBlocks bus =>
    rw [stacksHookPair, stacksBlockUpdatesLoop_eq] at hp
    simp only [List.nil_append, List.mem_flatMap, List.mem_append] at hp
    obtain ⟨bu, hbu, hp⟩ := hp
    rw [eventApplyTransactions]
    rcases hp with hp | hp
    · obtain ⟨mb, hmb, hp⟩ := hp
      obtain ⟨b, hb, htx, _⟩ := mem_evaluate_stacks_chainhook_on_blocks hp
      simp only [List.mem_singleton] at hb
      subst hb
      exact List.mem_flatMap.mpr ⟨bu, hbu, List.mem_append_left _
        (List.mem_flatMap.mpr ⟨mb, hmb, htx⟩)⟩
    · obtain ⟨b, hb, htx, _⟩ := mem_evaluate_stacks_chainhook_on_blocks hp
      simp only [List.mem_singleton] at hb
      subst hb
      exact List.mem_flatMap.mpr ⟨bu, hbu, List.mem_append_right _ htx⟩
  | ChainUpdatedWithMicroblocks mbs =>
    rw [stacksHookPair] at hp
    simp only [List.mem_flatMap] at hp
    obtain ⟨mb, hmb, hp⟩ := hp
    obtain ⟨b, hb, htx, _⟩ := mem_evaluate_stacks_chainhook_on_blocks hp
    simp only [List.mem_singleton] at hb
    subst hb
    exact List.mem_flatMap.mpr ⟨mb, hmb, htx⟩
  | ChainUpdatedWithMicroblocksReorg mbsA mbsR =>
    rw [stacksHookPair] at hp
    simp only [List.mem_flatMap] at hp
    obtain ⟨mb, hmb, hp⟩ := hp
    obtain ⟨b, hb, htx, _⟩ := mem_evaluate_stacks_chainhook_on_blocks hp
    simp only [List.mem_singleton] at hb
    subst hb
    exact List.mem_flatMap.mpr ⟨mb, hmb, htx⟩
  | ChainUpdatedWithReorg toApply toRollback =>
    rw [stacksHookPair, stacksReorgApplyLoop_eq] at hp
    simp only [List.nil_append, List.mem_flatMap, List.mem_append] at hp
    obtain ⟨bu, hbu, hp⟩ := hp
    rw [eventApplyTransactions]
    rcases hp with hp | hp
    · obtain ⟨mb, hmb, hp⟩ := hp
      obtain ⟨b, hb, htx, _⟩ := mem_evaluate_stacks_chainhook_on_blocks hp
      simp only [List.mem_singleton] at hb
      subst hb
      exact List.mem_flatMap.mpr ⟨bu, hbu, List.mem_append_left _
        (List.mem_flatMap.mpr ⟨mb, hmb, htx⟩)⟩
    · obtain ⟨b, hb, htx, _⟩ := mem_evaluate_stacks_chainhook_on_blocks hp
      simp only [List.mem_singleton] at hb
      subst hb
      exact List.mem_flatMap.mpr ⟨bu, hbu, List.mem_append_right _ htx⟩

/-- Every transaction named on the rollback side of a hook's accumulated
pair comes from a rollback-side block or microblock of the event. -/
theorem stacksHookPair_snd_origin {ev : StacksChainEvent}
    {chainhook : StacksChainhookSpecification} {p : StacksOccurrence}
    (hp : p ∈ (stacksHookPair ev chainhook).2) :
    p.1 ∈ eventRollbackTransactions ev := by
  cases ev with
  | ChainUpdatedWithBlocks bus =>
    rw [stacksHookPair, stacksBlockUpdatesLoop_eq] at hp
    simp only [List.nil_append, List.mem_flatMap] at hp
    obtain ⟨bu, hbu, hp⟩ := hp
    obtain ⟨mb, hmb, hp⟩ := hp
    obtain ⟨b, hb, htx, _⟩ := mem_evaluate_stacks_chainhook_on_blocks hp
    simp only [List.mem_singleton] at hb
    subst hb
    exact List.mem_flatMap.mpr ⟨bu, hbu, List.mem_flatMap.mpr ⟨mb, hmb, htx⟩⟩
  | ChainUpdatedWithMicroblocks mbs =>
    rw [stacksHookPair] at hp
    cases hp
  | ChainUpdatedWithMicroblocksReorg mbsA mbsR =>
    rw [stacksHookPair] at hp
    simp only [List.mem_flatMap] at hp
    obtain ⟨mb, hmb, hp⟩ := hp
    obtain ⟨b, hb, htx, _⟩ := mem_evaluate_stacks_chainhook_on_blocks hp
    simp only [List.mem_singleton] at hb
    subst hb
    exact List.mem_flatMap.mpr ⟨mb, hmb, htx⟩
  | ChainUpdatedWithReorg toApply toRollback =>
    rw [stacksHookPair, stacksReorgRollbackLoop_eq] at hp
    simp only [List.nil_append, List.mem_flatMap, List.mem_append] at hp
    obtain ⟨bu, hbu, hp⟩ := hp
    rw [eventRollbackTransactions]
    rcases hp with hp | hp
    · obtain ⟨mb, hmb, hp⟩ := hp
      obtain ⟨b, hb, htx, _⟩ := mem_evaluate_stacks_chainhook_on_blocks hp
      simp only [List.mem_singleton] at hb
      subst hb
      exact List.mem_flatMap.mpr ⟨bu, hbu, List.mem_append_left _
        (List.mem_flatMap.mpr ⟨mb, hmb, htx⟩)⟩
    · obtain ⟨b, hb, htx, _⟩ := mem_evaluate_stacks_chainhook_on_blocks hp
      simp only [List.mem_singleton] at hb
      subst hb
      exact List.mem_flatMap.mpr ⟨bu, hbu, List.mem_append_right _ htx⟩

/-- Every emitted trigger belongs to an active hook, carries exactly that
hook's accumulated pair, and is non-empty. -/
theorem mem_evaluate_stacks {ev : StacksChainEvent}
    {hooks : List StacksChainhookSpecification} {t : StacksTriggerChainhook}
    (ht : t ∈ evaluate_stacks_chainhooks_on_chain_event ev hooks) :
    t.chainhook ∈ hooks ∧ t.apply = (stacksHookPair ev t.chainhook).1 ∧
      t.rollback = (stacksHookPair ev t.chainhook).2 ∧
      (t.apply ≠ [] ∨ t.rollback ≠ []) := by
  rw [evaluate_stacks_chainhooks_on_chain_event, List.mem_filterMap] at ht
  obtain ⟨hook, hmem, hsome⟩ := ht
  by_cases hcond : (stacksHookPair ev hook).1.isEmpty
      && (stacksHookPair ev hook).2.isEmpty
  · rw [if_pos hcond] at hsome; cases hsome
  · rw [if_neg hcond] at hsome
    obtain rfl := Option.some.inj hsome
    simp only [Bool.and_eq_true, List.isEmpty_iff, not_and_or] at hcond
    exact ⟨hmem, rfl, rfl, hcond⟩

/-- Mapping back the selected values of a `filterMap` yields a sublist of
the inputs when selection preserves the input. -/
theorem map_sublist_of_filterMap {α β : Type} (f : α → Option β) (g : β → α)
    (hfg : ∀ a b, f a = some b → g b = a) :
    ∀ l : List α, ((l.filterMap f).map g).Sublist l
  | [] => by simp
  | a :: l => by
    cases hfa : f a with
    | none =>
      rw [List.filterMap_cons_none hfa]
      exact (map_sublist_of_filterMap f g hfg l).cons a
    | some b =>
      rw [List.filterMap_cons_some hfa, List.map_cons, hfg a b hfa]
      exact (map_sublist_of_filterMap f g hfg l).cons₂ a

/-- A `filterMap` dropping at least one input is strictly shorter than
the input list. -/
theorem length_filterMap_lt_of_none {α β : Type} (f : α → Option β) :
    ∀ (l : List α) (a : α), a ∈ l → f a = none →
      (l.filterMap f).length < l.length
  | [], a, ha, _ => absurd ha (List.not_mem_nil a)
  | b :: l, a, ha, hfa => by
    rcases List.mem_cons.mp ha with rfl | ha'
    · rw [List.filterMap_cons_none hfa, List.length_cons]
      exact Nat.lt_succ_of_le (List.length_filterMap_le f l)
    · cases hfb : f b with
      | none =>
        rw [List.filterMap_cons_none hfb, List.length_cons]
        exact Nat.lt_succ_of_lt (length_filterMap_lt_of_none f l a ha' hfa)
      | some c =>
        rw [List.filterMap_cons_some hfb, List.length_cons, List.length_cons]
        exact Nat.succ_lt_succ (length_filterMap_lt_of_none f l a ha' hfa)

/-- C1: for every Stacks chainhook and every transaction occurring at most
once in a block, one call of the per-block matcher
`evaluate_stacks_chainhook_on_blocks` records at most one occurrence pair
for that (transaction, hook) pair, even if the transaction emits several
receipt events that each satisfy the hook's predicate. -/
theorem c1_per_block_matcher_at_most_one_occurrence
    (chainhook : StacksChainhookSpecification) (b : AbstractBlock)
    (tx : StacksTransactionData)
    (h : b.get_transactions.count tx ≤ 1) :
    (evaluate_stacks_chainhook_on_blocks [b] chainhook).count
      ((tx, b.get_identifier) : StacksOccurrence) ≤ 1 := by
  have hcount := count_occurrences_le_count chainhook b.get_identifier tx
    b.get_transactions
  rw [evaluate_stacks_chainhook_on_blocks]
  simp only [List.flatMap_cons, List.flatMap_nil, List.append_nil]
  omega

/-- Witness for C1 at a transaction emitting two qualifying NFT mint
events: exactly one occurrence is recorded. -/
theorem c1_witness :
    exBlock.toAbstractBlock.get_transactions.count exNftTx ≤ 1 ∧
      (evaluate_stacks_chainhook_on_blocks [exBlock.toAbstractBlock]
          exNftHook).count
        ((exNftTx, exBlock.toAbstractBlock.get_identifier) : StacksOccurrence)
        ≤ 1 :=
  ⟨by decide, c1_per_block_matcher_at_most_one_occurrence exNftHook
    exBlock.toAbstractBlock exNftTx (by decide)⟩

/-- C2: for an `UpdatedWithBlocks` event whose single block update carries
parent microblocks to apply, parent microblocks to roll back and one
block, the hook's apply sequence is exactly the matches of the
microblocks-to-apply in order followed by the matches of the block, the
rollback sequence is exactly the matches of the microblocks-to-rollback
in order, and every rollback occurrence originates in a
microblock-to-rollback (never in the block itself). -/
theorem c2_blocks_apply_rollback_ordering
    (chainhook : StacksChainhookSpecification) (blk : StacksBlockData)
    (mbsA mbsR : List StacksMicroblockData) :
    ((stacksHookPair
        (.ChainUpdatedWithBlocks [⟨blk, mbsA, mbsR⟩]) chainhook).1
      = (mbsA.flatMap fun mb =>
          evaluate_stacks_chainhook_on_blocks [mb.toAbstractBlock] chainhook)
        ++ evaluate_stacks_chainhook_on_blocks [blk.toAbstractBlock] chainhook) ∧
    ((stacksHookPair
        (.ChainUpdatedWithBlocks [⟨blk, mbsA, mbsR⟩]) chainhook).2
      = mbsR.flatMap fun mb =>
          evaluate_stacks_chainhook_on_blocks [mb.toAbstractBlock] chainhook) ∧
    (∀ p ∈ (stacksHookPair
        (.ChainUpdatedWithBlocks [⟨blk, mbsA, mbsR⟩]) chainhook).2,
      ∃ mb ∈ mbsR, p.1 ∈ mb.transactions ∧ p.2 = mb.block_identifier) := by
  have h := stacksBlockUpdatesLoop_eq chainhook [⟨blk, mbsA, mbsR⟩] [] []
  simp only [List.flatMap_cons, List.flatMap_nil, List.append_nil,
    List.nil_append] at h
  refine ⟨?_, ?_, ?_⟩
  · rw [stacksHookPair, h]
  · rw [stacksHookPair, h]
  · intro p hp
    rw [stacksHookPair, h] at hp
    obtain ⟨mb, hmb, hp'⟩ := List.mem_flatMap.mp hp
    obtain ⟨b, hb, htx, hid⟩ := mem_evaluate_stacks_chainhook_on_blocks hp'
    simp only [List.mem_singleton] at hb
    subst hb
    exact ⟨mb, hmb, htx, hid⟩

/-- Witness for C2: the rollback occurrence of the example event
originates in the rollback microblock. -/
theorem c2_witness :
    exNftTx ∈ exMicroblockB.transactions ∧
      ((⟨12, "mbB"⟩ : BlockIdentifier) = exMicroblockB.block_identifier) := by
  obtain ⟨mb, hmb, h1, h2⟩ :=
    (c2_blocks_apply_rollback_ordering exNftHook exBlock [exMicroblockA]
      [exMicroblockB]).2.2 (exNftTx, ⟨12, "mbB"⟩) (by decide)
  rw [List.mem_singleton] at hmb
  subst hmb
  exact ⟨h1, h2⟩

/-- C3 counterexample: an event naming the same microblock on both the
apply and the rollback side yields a trigger in which the same occurrence
is in both `apply` and `rollback`, so apply/rollback exclusivity fails
for an arbitrary chain event. -/
theorem c3_counterexample :
    ∃ t ∈ evaluate_stacks_chainhooks_on_chain_event
        (.ChainUpdatedWithMicroblocksReorg [exMicroblockA] [exMicroblockA])
        [exCallHook],
      ∃ p ∈ t.apply, p ∈ t.rollback := by decide

/-- C3 (amended): whenever no transaction is carried both by an
apply-side and by a rollback-side block or microblock of the event, no
transaction appears in both the apply and the rollback sequence of any
emitted trigger. -/
theorem c3_apply_rollback_exclusive
    (ev : StacksChainEvent) (hooks : List StacksChainhookSpecification)
    (hdisj : ∀ tx ∈ eventApplyTransactions ev,
      tx ∉ eventRollbackTransactions ev) :
    ∀ t ∈ evaluate_stacks_chainhooks_on_chain_event ev hooks,
      ∀ p ∈ t.apply, ∀ q ∈ t.rollback, p.1 ≠ q.1 := by
  intro t ht p hp q hq hpq
  obtain ⟨_, ha, hr, _⟩ := mem_evaluate_stacks ht
  rw [ha] at hp
  rw [hr] at hq
  have hfst := stacksHookPair_fst_origin hp
  rw [hpq] at hfst
  exact hdisj q.1 hfst (stacksHookPair_snd_origin hq)

/-- Witness for C3 (amended) at a concrete event with disjoint sides. -/
theorem c3_witness : exContractCallTx ≠ exContractCallTx2 :=
  c3_apply_rollback_exclusive
    (.ChainUpdatedWithMicroblocksReorg [exMicroblockA] [exMicroblockC])
    [exCallHook] (by decide)
    ⟨exCallHook, [(exContractCallTx, ⟨11, "mbA"⟩)],
      [(exContractCallTx2, ⟨14, "mbC"⟩)]⟩ (by decide)
    (exContractCallTx, ⟨11, "mbA"⟩) (by decide)
    (exContractCallTx2, ⟨14, "mbC"⟩) (by decide)

/-- C8: a hook whose accumulated apply and rollback sets are both empty
contributes no trigger, so the output is strictly shorter than the active
hook list; moreover every emitted trigger is non-empty. -/
theorem c8_empty_hook_no_trigger (ev : StacksChainEvent)
    (hooks : List StacksChainhookSpecification)
    (hook : StacksChainhookSpecification) (hmem : hook ∈ hooks)
    (hempty : stacksHookPair ev hook = ([], [])) :
    (evaluate_stacks_chainhooks_on_chain_event ev hooks).length
        < hooks.length ∧
      ∀ t ∈ evaluate_stacks_chainhooks_on_chain_event ev hooks,
        t.apply ≠ [] ∨ t.rollback ≠ [] := by
  constructor
  · rw [evaluate_stacks_chainhooks_on_chain_event]
    exact length_filterMap_lt_of_none _ hooks hook hmem (by simp [hempty])
  · intro t ht
    exact (mem_evaluate_stacks ht).2.2.2

/-- Witness for C8: with one matching and one idle hook the output has
fewer triggers than there are active hooks. -/
theorem c8_witness :
    (evaluate_stacks_chainhooks_on_chain_event
        (.ChainUpdatedWithMicroblocks [exMicroblockB])
        [exNftHook, exIdleHook]).length
      < ([exNftHook, exIdleHook] :
          List StacksChainhookSpecification).length :=
  (c8_empty_hook_no_trigger (.ChainUpdatedWithMicroblocks [exMicroblockB])
    [exNftHook, exIdleHook] exIdleHook (by decide) (by decide)).1

/-- C9: for an `UpdatedWithMicroblocks` event every microblock is
evaluated only into the apply sequence: each emitted trigger's rollback
is empty and its apply is exactly the in-order matches of the new
microblocks. -/
theorem c9_microblocks_rollback_empty
    (mbs : List StacksMicroblockData)
    (hooks : List StacksChainhookSpecification) :
    ∀ t ∈ evaluate_stacks_chainhooks_on_chain_event
        (.ChainUpdatedWithMicroblocks mbs) hooks,
      t.rollback = [] ∧
        t.apply = mbs.flatMap fun mb =>
          evaluate_stacks_chainhook_on_blocks [mb.toAbstractBlock]
            t.chainhook := by
  intro t ht
  obtain ⟨_, ha, hr, _⟩ := mem_evaluate_stacks ht
  simp only [stacksHookPair] at ha hr
  exact ⟨hr, ha⟩

/-- Witness for C9 at the example microblock event. -/
theorem c9_witness :
    (⟨exNftHook, [(exNftTx, ⟨12, "mbB"⟩)], []⟩ :
        StacksTriggerChainhook).rollback = [] ∧
      (⟨exNftHook, [(exNftTx, ⟨12, "mbB"⟩)], []⟩ :
          StacksTriggerChainhook).apply
        = [exMicroblockB].flatMap fun mb =>
            evaluate_stacks_chainhook_on_blocks [mb.toAbstractBlock]
              (⟨exNftHook, [(exNftTx, ⟨12, "mbB"⟩)], []⟩ :
                StacksTriggerChainhook).chainhook :=
  c9_microblocks_rollback_empty [exMicroblockB] [exNftHook]
    ⟨exNftHook, [(exNftTx, ⟨12, "mbB"⟩)], []⟩ (by decide)

/-- C10: the trigger sequence contains at most one trigger per occurrence
of a hook in the active list, and triggers appear in the relative order
of their hooks in that list: the mapped hook sequence is a sublist of the
active hooks, and per-hook counts never exceed those of the active
list. -/
theorem c10_triggers_ordered_per_hook (ev : StacksChainEvent)
    (hooks : List StacksChainhookSpecification) :
    ((evaluate_stacks_chainhooks_on_chain_event ev hooks).map
        StacksTriggerChainhook.chainhook).Sublist hooks ∧
      ∀ hook : StacksChainhookSpecification,
        ((evaluate_stacks_chainhooks_on_chain_event ev hooks).map
            StacksTriggerChainhook.chainhook).count hook
          ≤ hooks.count hook := by
  have hfg : ∀ (hook : StacksChainhookSpecification)
      (t : StacksTriggerChainhook),
      (if (stacksHookPair ev hook).1.isEmpty
          && (stacksHookPair ev hook).2.isEmpty then none
       else some (⟨hook, (stacksHookPair ev hook).1,
          (stacksHookPair ev hook).2⟩ : StacksTriggerChainhook)) = some t →
      t.chainhook = hook := by
    intro hook t h
    by_cases hc : (stacksHookPair ev hook).1.isEmpty
        && (stacksHookPair ev hook).2.isEmpty
    · rw [if_pos hc] at h; cases h
    · rw [if_neg hc] at h
      obtain rfl := Option.some.inj h
      rfl
  have hsub := map_sublist_of_filterMap _ StacksTriggerChainhook.chainhook
    hfg hooks
  exact ⟨hsub, fun hook => hsub.count_le hook⟩

/-- C4: for a `P2pkh(Equals(address))` predicate whose address decodes to
at least 21 bytes, `evaluate_predicate` returns true exactly when some
output's script-pubkey equals the hex encoding of the canonical
pay-to-pubkey-hash script built from bytes 1..21 of the decoded
address. -/
theorem c4_p2pkh_equals_iff (address u : String) (act : HookAction)
    (tx : BitcoinTransactionData) (bytes : List Nat)
    (hdec : from_base58 address = some bytes) (hlen : 21 ≤ bytes.length) :
    (BitcoinChainhookSpecification.evaluate_predicate
        ⟨u, ⟨.P2pkh (.Equals address)⟩, act⟩ tx = some true) ↔
      ∃ out ∈ tx.metadata.outputs,
        out.script_pubkey
          = to_hex (p2pkhScript ((bytes.drop 1).take 20)) := by
  rw [BitcoinChainhookSpecification.evaluate_predicate]
  simp only [hdec, Nat.not_lt.mpr hlen, if_false, Option.some.injEq,
    List.any_eq_true, beq_iff_eq]

/-- Witness for C4: a transaction paying the canonical script of the
example address is matched. -/
theorem c4_witness :
    BitcoinChainhookSpecification.evaluate_predicate
        ⟨"hook-btc", ⟨.P2pkh (.Equals exAddress)⟩, .Noop⟩ exBtcTx
      = some true :=
  (c4_p2pkh_equals_iff exAddress "hook-btc" .Noop exBtcTx
      (List.replicate 22 0) (by decide) (by decide)).mpr
    ⟨⟨5000, exScriptHex⟩, by decide, by decide⟩

/-- C5: every (address-form, rule) pair other than `(P2pkh, Equals)`
evaluates to false on every transaction. -/
theorem c5_unimplemented_rules_false (hook : BitcoinChainhookSpecification)
    (tx : BitcoinTransactionData)
    (h : ∀ address : String,
      hook.predicate.kind ≠ .P2pkh (.Equals address)) :
    hook.evaluate_predicate tx = some false := by
  obtain ⟨u, ⟨kind⟩, act⟩ := hook
  cases kind with
  | Hex rule => cases rule <;> rfl
  | P2pkh rule =>
    cases rule with
    | Equals address => exact absurd rfl (h address)
    | StartsWith _ => rfl
    | EndsWith _ => rfl
  | P2sh rule => cases rule <;> rfl
  | P2wpkh rule => cases rule <;> rfl
  | P2wsh rule => cases rule <;> rfl
  | Script _ => rfl

/-- Witness for C5 at a hex-rule hook and concrete transaction. -/
theorem c5_witness : exBtcHexHook.evaluate_predicate exBtcTx = some false :=
  c5_unimplemented_rules_false exBtcHexHook exBtcTx (fun _ h => nomatch h)

/-- The per-hook transaction scan succeeds whenever the hook's predicate
never aborts. -/
theorem bitcoinHookScan_total (hook : BitcoinChainhookSpecification)
    (bid : BlockIdentifier)
    (h : ∀ tx, hook.evaluate_predicate tx ≠ none) :
    ∀ txs : List BitcoinTransactionData,
      ∃ l, bitcoinHookScan hook bid txs = some l
  | [] => ⟨[], rfl⟩
  | tx :: txs => by
    obtain ⟨l, hl⟩ := bitcoinHookScan_total hook bid h txs
    rw [bitcoinHookScan]
    cases hp : hook.evaluate_predicate tx with
    | none => exact absurd hp (h tx)
    | some b =>
      cases b
      · exact ⟨l, hl⟩
      · exact ⟨(hook, tx, bid) :: l, by rw [hl]; rfl⟩

/-- The hook loop succeeds whenever no active hook's predicate aborts. -/
theorem bitcoinHooksLoop_total (block : BitcoinBlockData) :
    ∀ hooks : List BitcoinChainhookSpecification,
      (∀ hook ∈ hooks, ∀ tx, hook.evaluate_predicate tx ≠ none) →
      ∃ l, bitcoinHooksLoop block hooks = some l
  | [], _ => ⟨[], rfl⟩
  | hook :: hooks, h => by
    obtain ⟨l1, hl1⟩ := bitcoinHookScan_total hook block.block_identifier
      (h hook (List.mem_cons_self hook hooks)) block.transactions
    obtain ⟨l2, hl2⟩ := bitcoinHooksLoop_total block hooks
      (fun hk hmem tx => h hk (List.mem_cons_of_mem hook hmem) tx)
    exact ⟨l1 ++ l2, by rw [bitcoinHooksLoop, hl1, hl2]⟩

/-- C6: matching is total except for the P2PKH abort: a predicate
evaluation returns `none` (the embedded panic) exactly for a
`P2pkh(Equals(address))` predicate whose address is malformed (base58
decode failure or fewer than 21 decoded bytes), and whenever no active
hook carries such an address, Bitcoin event evaluation returns a
(possibly empty) trigger list. -/
theorem c6_matching_total_except_bad_address :
    (∀ (hook : BitcoinChainhookSpecification) (tx : BitcoinTransactionData),
        hook.evaluate_predicate tx = none ↔
          ∃ address, hook.predicate.kind = .P2pkh (.Equals address) ∧
            base58AddressAborts address = true) ∧
      ∀ (ev : BitcoinChainEvent)
          (hooks : List BitcoinChainhookSpecification),
        (∀ hook ∈ hooks, ∀ tx, hook.evaluate_predicate tx ≠ none) →
          ∃ l, evaluate_bitcoin_chainhooks_on_chain_event ev hooks
            = some l := by
  constructor
  · intro hook tx
    obtain ⟨u, ⟨kind⟩, act⟩ := hook
    cases kind with
    | Hex rule => cases rule <;> simp [BitcoinChainhookSpecification.evaluate_predicate]
    | P2pkh rule =>
      cases rule with
      | Equals address =>
        rw [BitcoinChainhookSpecification.evaluate_predicate]
        cases hd : from_base58 address with
        | none =>
          simp [base58AddressAborts, hd]
        | some bytes =>
          by_cases hlt : bytes.length < 21
          · simp [base58AddressAborts, hd, hlt]
          · simp [base58AddressAborts, hd, hlt]
      | StartsWith _ => simp [BitcoinChainhookSpecification.evaluate_predicate]
      | EndsWith _ => simp [BitcoinChainhookSpecification.evaluate_predicate]
    | P2sh rule => cases rule <;> simp [BitcoinChainhookSpecification.evaluate_predicate]
    | P2wpkh rule => cases rule <;> simp [BitcoinChainhookSpecification.evaluate_predicate]
    | P2wsh rule => cases rule <;> simp [BitcoinChainhookSpecification.evaluate_predicate]
    | Script _ => simp [BitcoinChainhookSpecification.evaluate_predicate]
  · intro ev hooks h
    cases ev with
    | ChainUpdatedWithBlocks block =>
      exact bitcoinHooksLoop_total block hooks h
    | ChainUpdatedWithReorg old_blocks new_blocks => exact ⟨[], rfl⟩

/-- Witness for C6: evaluation of the example block under the hex-rule
hook returns a trigger list. -/
theorem c6_witness :
    ∃ l, evaluate_bitcoin_chainhooks_on_chain_event
        (.ChainUpdatedWithBlocks exBtcBlock) [exBtcHexHook] = some l :=
  c6_matching_total_except_bad_address.2
    (.ChainUpdatedWithBlocks exBtcBlock) [exBtcHexHook]
    (fun hook hmem tx h => by
      rw [List.mem_singleton] at hmem
      subst hmem
      have hfalse : exBtcHexHook.evaluate_predicate tx = some false := rfl
      rw [hfalse] at h
      cases h)

/-- A successful per-hook scan returns exactly the in-order transactions
whose predicate evaluation returned true, paired with the hook and the
block identifier. -/
theorem bitcoinHookScan_eq_of_some (hook : BitcoinChainhookSpecification)
    (bid : BlockIdentifier) :
    ∀ (txs : List BitcoinTransactionData) (l : List BitcoinTriggerTuple),
      bitcoinHookScan hook bid txs = some l →
        l = (txs.filter fun tx =>
            hook.evaluate_predicate tx == some true).map
          fun tx => (hook, tx, bid)
  | [], l, h => by
    rw [bitcoinHookScan] at h
    obtain rfl := Option.some.inj h
    rfl
  | tx :: txs, l, h => by
    rw [bitcoinHookScan] at h
    cases hp : hook.evaluate_predicate tx with
    | none => rw [hp] at h; cases h
    | some b =>
      rw [hp] at h
      cases b
      · rw [List.filter_cons_of_neg (by simp [hp])]
        exact bitcoinHookScan_eq_of_some hook bid txs l h
      · rw [Option.map_eq_some'] at h
        obtain ⟨l', hl', rfl⟩ := h
        rw [List.filter_cons_of_pos (by simp [hp]), List.map_cons]
        rw [bitcoinHookScan_eq_of_some hook bid txs l' hl']

/-- A successful hook loop returns the per-hook scans concatenated in
active-hook order. -/
theorem bitcoinHooksLoop_eq_of_some (block : BitcoinBlockData) :
    ∀ (hooks : List BitcoinChainhookSpecification)
      (l : List BitcoinTriggerTuple),
      bitcoinHooksLoop block hooks = some l →
        l = hooks.flatMap fun hook =>
          (block.transactions.filter fun tx =>
            hook.evaluate_predicate tx == some true).map
            fun tx => (hook, tx, block.block_identifier)
  | [], l, h => by
    rw [bitcoinHooksLoop] at h
    obtain rfl := Option.some.inj h
    rfl
  | hook :: hooks, l, h => by
    rw [bitcoinHooksLoop] at h
    cases hs : bitcoinHookScan hook block.block_identifier
        block.transactions with
    | none => rw [hs] at h; cases h
    | some l1 =>
      rw [hs] at h
      cases hr : bitcoinHooksLoop block hooks with
      | none => rw [hr] at h; cases h
      | some l2 =>
        rw [hr] at h
        obtain rfl := Option.some.inj h
        rw [List.flatMap_cons,
          ← bitcoinHookScan_eq_of_some hook block.block_identifier
            block.transactions l1 hs,
          ← bitcoinHooksLoop_eq_of_some block hooks l2 hr]

/-- C7: Bitcoin evaluation handles only `UpdatedWithBlocks`: a reorg
event yields the empty trigger list, and a successful blocks event
yields, per active hook in order, one tuple per transaction of the block
in arrival order exactly when its predicate evaluation returned true. -/
theorem c7_bitcoin_blocks_only (hooks : List BitcoinChainhookSpecification) :
    (∀ old_blocks new_blocks : List BitcoinBlockData,
        evaluate_bitcoin_chainhooks_on_chain_event
          (.ChainUpdatedWithReorg old_blocks new_blocks) hooks = some []) ∧
      ∀ (block : BitcoinBlockData) (l : List BitcoinTriggerTuple),
        evaluate_bitcoin_chainhooks_on_chain_event
            (.ChainUpdatedWithBlocks block) hooks = some l →
          l = hooks.flatMap fun hook =>
            (block.transactions.filter fun tx =>
              hook.evaluate_predicate tx == some true).map
              fun tx => (hook, tx, block.block_identifier) := by
  constructor
  · intro old_blocks new_blocks
    rfl
  · intro block l h
    exact bitcoinHooksLoop_eq_of_some block hooks l h

/-- Witness for C7: the example block under the example P2PKH hook emits
exactly the tuple of the matching transaction. -/
theorem c7_witness :
    ([(exBtcHook, exBtcTx, (⟨99, "btc-blk"⟩ : BlockIdentifier))] :
        List BitcoinTriggerTuple)
      = [exBtcHook].flatMap fun hook =>
          (exBtcBlock.transactions.filter fun tx =>
            hook.evaluate_predicate tx == some true).map
            fun tx => (hook, tx, exBtcBlock.block_identifier) :=
  (c7_bitcoin_blocks_only [exBtcHook]).2 exBtcBlock
    [(exBtcHook, exBtcTx, ⟨99, "btc-blk"⟩)] (by decide)
